import Mathlib

set_option maxHeartbeats 1000000

/-!
Verification of the worker-side executors of the MapReduce repository
(src/src/DoMap.go and src/src/DoReduce.go).

The two Go functions `doMap` and `doReduce` are embedded shallowly.
Filesystem state is an association list from file identifiers to the
sequence of key/value records a file holds (the JSON record codec is a
bijection between a file's byte content and the record sequence it
stores, so contents are modelled directly as record sequences).
Go I/O operations that can fail at the operating-system level are
modelled by fault-injection flags supplied as inputs; the no-fault
instantiations model invocations in which the operating system reports
no error.  Go's unspecified `map` iteration order in DoReduce.go is
modelled by a `reorder` input, constrained (in theorems) to be a
permutation of the grouped entries.
-/

/-- Key/value pair flowing between the map and reduce phases.  Mirrors
the Go struct `KeyValue` (declared in the framework's common file,
outside src/) with `Key` and `Value` string fields, exactly as consumed
by `doMap` (DoMap.go line 54) and `doReduce` (DoReduce.go line 60). -/
structure KeyValue where
  Key : String
  Value : String
deriving DecidableEq

/-- Modelled from the spec: the Naming Scheme (`reduceName` and
`mergeName`, declared in the framework's common file, outside src/) is
a pair of deterministic, collision-free mappings from task coordinates
to stable file identifiers (spec section 4.2 and section 6).  It is
modelled as an inductive identifier type, which is injective over its
inputs by construction, exactly as the spec requires. -/
inductive FName where
  | shard (job : String) (mapIdx : Nat) (reduceIdx : Nat)
  | merge (job : String) (reduceIdx : Nat)
deriving DecidableEq

/-- Name of the intermediate shard file written by map task `mapTask`
for reduce task `reduceTask` (Go `reduceName(jobName, mapTaskNumber, i)`,
called at DoMap.go line 131 and DoReduce.go line 64). -/
def reduceName (jobName : String) (mapTask : Nat) (reduceTask : Nat) : FName :=
  FName.shard jobName mapTask reduceTask

/-- Name of the final merge file of reduce task `reduceTask`
(Go `mergeName(jobName, reduceTaskNumber)`, called at DoReduce.go line 182). -/
def mergeName (jobName : String) (reduceTask : Nat) : FName :=
  FName.merge jobName reduceTask

/-- The on-disk state visible to the executors: an association list
from file identifiers to the sequence of records stored in the file. -/
abbrev FS := List (FName × List KeyValue)

/-- Look up a file's content; `none` means the file is absent
(Go `os.Stat` returning `fs.ErrNotExist`). -/
def lookupFS : FS → FName → Option (List KeyValue)
  | [], _ => none
  | (m, c) :: rest, n => if m = n then some c else lookupFS rest n

/-- Whether a file exists (Go `os.Stat` succeeding). -/
def containsFS (fs : FS) (n : FName) : Bool :=
  (lookupFS fs n).isSome

/-- Remove a file (Go `os.Remove`). -/
def eraseFS (fs : FS) (n : FName) : FS :=
  fs.filter (fun p => decide (p.1 ≠ n))

/-- Create a file with the given content (Go `os.Create` followed by
`WriteString` and `Close`; `os.Create` truncates any file already at
that location). -/
def createFS (fs : FS) (n : FName) (c : List KeyValue) : FS :=
  eraseFS fs n ++ [(n, c)]

/-- UTF-8 encoding of one character, as Go's `[]byte(s)` produces for
each rune of a string (Go strings are UTF-8 byte sequences). -/
def utf8Bytes (c : Char) : List Nat :=
  let n := c.toNat
  if n < 128 then [n]
  else if n < 2048 then [192 ||| (n >>> 6), 128 ||| (n &&& 63)]
  else if n < 65536 then
    [224 ||| (n >>> 12), 128 ||| ((n >>> 6) &&& 63), 128 ||| (n &&& 63)]
  else
    [240 ||| (n >>> 18), 128 ||| ((n >>> 12) &&& 63),
     128 ||| ((n >>> 6) &&& 63), 128 ||| (n &&& 63)]

/-- The byte sequence of a Go string (`[]byte(s)` at DoMap.go line 218). -/
def stringBytes (s : String) : List Nat :=
  s.data.foldr (fun c acc => utf8Bytes c ++ acc) []

/-- One step of the 32-bit FNV-1a hash: xor in a byte, multiply by the
FNV prime 16777619, truncate to 32 bits (Go `hash/fnv` `New32a`). -/
def fnv32aStep (h b : Nat) : Nat :=
  (Nat.xor h b) * 16777619 % 4294967296

/-- DoMap.go lines 216-220: `ihash` hashes a string to a 32-bit value
using FNV-1a over the string's bytes (offset basis 2166136261). -/
def ihash (s : String) : Nat :=
  (stringBytes s).foldl fnv32aStep 2166136261

/-- Go runtime panic message produced by `%` with a zero divisor. -/
def divideByZeroMsg : String := "runtime error: integer divide by zero"

/-- Kinds of error values the two executors store in their `err`
variable.  `statClosed` is the error `os.File.Stat` returns when called
on an already-closed file descriptor (`use of closed file`). -/
inductive GoErr where
  | readErr
  | encodeErr
  | statErr
  | removeErr
  | createErr
  | statClosed
  | openErr
  | reduceFnErr
deriving DecidableEq

/-- Fault injection for the operating-system calls made by `doMap`:
`readErr` makes `os.ReadFile` fail; `encodeErr k` makes the JSON
`Encode` of the `k`-th emitted pair fail; `statErr i`, `removeErr i`
and `createErr i` make `os.Stat`, `os.Remove` and `os.Create` for
shard `i` fail.  The all-`false` value models a run in which the
operating system reports no error. -/
structure MapFaults where
  readErr : Bool
  encodeErr : Nat → Bool
  statErr : Nat → Bool
  removeErr : Nat → Bool
  createErr : Nat → Bool

/-- The fault-free environment for a map task. -/
def noMapFaults : MapFaults :=
  ⟨false, fun _ => false, fun _ => false, fun _ => false, fun _ => false⟩

/-- Outcome of the partition-and-encode loop of DoMap.go lines 98-111. -/
inductive PartOut where
  | ok (shards : List (List KeyValue))
  | fail (e : GoErr)
  | panicked (msg : String)

/-- DoMap.go lines 101-111: for each emitted pair (running index `k`),
compute `encIndex = ihash(kv.Key) % uint32(nReduce)` and append the
pair to that shard's buffer; an encode error breaks the loop.  When
`nReduce = 0`, evaluating the `%` is a Go runtime panic (integer divide
by zero); there is no guard in the source. -/
def partitionEncodeLoop (nReduce : Nat) (fl : MapFaults) :
    Nat → List KeyValue → List (List KeyValue) → PartOut
  | _, [], bufs => PartOut.ok bufs
  | k, kv :: rest, bufs =>
    if nReduce = 0 then PartOut.panicked divideByZeroMsg
    else
      let encIndex := ihash kv.Key % nReduce
      if fl.encodeErr k then PartOut.fail GoErr.encodeErr
      else partitionEncodeLoop nReduce fl (k + 1) rest
             (bufs.set encIndex (bufs.getD encIndex [] ++ [kv]))

/-- DoMap.go lines 130-172: for each shard index `i` in order, stat the
target name, remove it if it exists, then create the file and write the
shard's encoding; any `os` error breaks the loop.  Returns the final
filesystem, the list of file names successfully created during this
invocation (the non-nil, already-closed entries of Go's `outFiles`),
and the error that broke the loop if any. -/
def createLoop (jobName : String) (mapTask : Nat) (fl : MapFaults) :
    List (List KeyValue) → Nat → FS → List FName → FS × List FName × Option GoErr
  | [], _, fs, created => (fs, created, none)
  | enc :: rest, i, fs, created =>
    let name := reduceName jobName mapTask i
    if fl.statErr i then (fs, created, some GoErr.statErr)
    else if containsFS fs name then
      if fl.removeErr i then (fs, created, some GoErr.removeErr)
      else if fl.createErr i then (eraseFS fs name, created, some GoErr.createErr)
      else createLoop jobName mapTask fl rest (i + 1)
             (createFS (eraseFS fs name) name enc) (created ++ [name])
    else if fl.createErr i then (fs, created, some GoErr.createErr)
    else createLoop jobName mapTask fl rest (i + 1)
           (createFS fs name enc) (created ++ [name])

/-- DoMap.go lines 178-201: the failure-path cleanup iterates over the
created output files and calls `outFiles[i].Stat()` on each.  Every
such handle was already closed at line 170, and `os.File.Stat` on a
closed descriptor returns an error (`use of closed file`), so the loop
takes its error branch, overwrites `err` with that stat error, and
never reaches the `os.Remove` call: no file is deleted.  The final
`err` printed is therefore the closed-stat error whenever at least one
file had been created, and the original error otherwise. -/
def cleanupErr (created : List FName) (e : GoErr) : GoErr :=
  created.foldl (fun _acc _n => GoErr.statClosed) e

/-- Observable outcome of one `doMap` invocation: the resulting
filesystem, the error printed to standard output (DoMap.go line 203)
if any, the value returned to the caller (the Go function declares no
results, so this is always `none`), the Go runtime panic if one
occurred, and the names of shard files created during the invocation. -/
structure MapOut where
  fs : FS
  printed : Option GoErr
  ret : Option GoErr
  panicMsg : Option String
  created : List FName

/-- DoMap.go lines 49-205: read the input file, run the user map
transform, partition and JSON-encode the pairs into `nReduce` buffers,
then create and write one shard file per buffer; on any error, run the
cleanup loop and print the error.  `inputContent` is the content
`os.ReadFile` would return for `inFile`; `fl` injects operating-system
faults. -/
def doMap (jobName : String) (mapTaskNumber : Nat) (inFile : String)
    (inputContent : String) (nReduce : Nat)
    (mapFunc : String → String → List KeyValue)
    (fl : MapFaults) (fs : FS) : MapOut :=
  if fl.readErr then
    { fs := fs, printed := some GoErr.readErr, ret := none,
      panicMsg := none, created := [] }
  else
    match partitionEncodeLoop nReduce fl 0 (mapFunc inFile inputContent)
            (List.replicate nReduce []) with
    | PartOut.panicked m =>
      { fs := fs, printed := none, ret := none, panicMsg := some m, created := [] }
    | PartOut.fail e =>
      { fs := fs, printed := some e, ret := none, panicMsg := none, created := [] }
    | PartOut.ok encs =>
      match createLoop jobName mapTaskNumber fl encs 0 fs [] with
      | (fs1, created, none) =>
        { fs := fs1, printed := none, ret := none, panicMsg := none,
          created := created }
      | (fs1, created, some e) =>
        { fs := fs1, printed := some (cleanupErr created e), ret := none,
          panicMsg := none, created := created }

/-- Fault injection for the operating-system calls made by `doReduce`:
`statErr m` and `openErr m` make `os.Stat` and `os.Open` of map task
`m`'s shard fail with an error other than `ErrNotExist`; `encodeErr k`
makes the JSON `Encode` of the `k`-th result pair fail; the three
`merge` flags make `os.Stat`, `os.Remove` and `os.Create` of the merge
file fail. -/
structure ReduceFaults where
  statErr : Nat → Bool
  openErr : Nat → Bool
  encodeErr : Nat → Bool
  mergeStatErr : Bool
  mergeRemoveErr : Bool
  mergeCreateErr : Bool

/-- The fault-free environment for a reduce task. -/
def noReduceFaults : ReduceFaults :=
  ⟨fun _ => false, fun _ => false, fun _ => false, false, false, false⟩

/-- DoReduce.go lines 62-112: for map index `m` ascending (`k` counts
the remaining indices), stat the shard name; absence (`ErrNotExist`) is
skipped without error, any other stat or open failure aborts, and a
present file's records are appended to the accumulator in stored
order. -/
def readLoop (jobName : String) (reduceTask : Nat) (fl : ReduceFaults) (fs : FS) :
    Nat → Nat → List KeyValue → Except GoErr (List KeyValue)
  | _, 0, acc => Except.ok acc
  | m, Nat.succ k, acc =>
    if fl.statErr m then Except.error GoErr.statErr
    else
      match lookupFS fs (reduceName jobName m reduceTask) with
      | none => readLoop jobName reduceTask fl fs (m + 1) k acc
      | some content =>
        if fl.openErr m then Except.error GoErr.openErr
        else readLoop jobName reduceTask fl fs (m + 1) k (acc ++ content)

/-- Reference characterization of the fault-free decode phase: the
concatenation, over map indices in ascending order, of the records of
each present shard file, an absent shard contributing `[]`. -/
def readPure (jobName : String) (reduceTask : Nat) (fs : FS) : Nat → Nat → List KeyValue
  | _, 0 => []
  | m, Nat.succ k =>
    (lookupFS fs (reduceName jobName m reduceTask)).getD [] ++
      readPure jobName reduceTask fs (m + 1) k

/-- DoReduce.go line 123: append one value to its key's list in the
grouping map, creating the entry if the key is new. -/
def groupInsert : List (String × List String) → String → String → List (String × List String)
  | [], k, v => [(k, [v])]
  | (k', vs) :: rest, k, v =>
    if k' = k then (k', vs ++ [v]) :: rest
    else (k', vs) :: groupInsert rest k v

/-- DoReduce.go lines 119-125: build the grouping map by appending each
decoded pair's value to the list for its key, in encounter order. -/
def buildGroups (kvs : List KeyValue) : List (String × List String) :=
  kvs.foldl (fun m kv => groupInsert m kv.Key kv.Value) []

/-- Look up a key's value list in the grouping map. -/
def lookupG : List (String × List String) → String → Option (List String)
  | [], _ => none
  | (k', vs) :: rest, k => if k' = k then some vs else lookupG rest k

/-- DoReduce.go lines 132-147: invoke the user reduce function on each
grouped entry in iteration order; a result equal to the string
`"error"` is treated as the failure signal and aborts the loop,
otherwise the pair `(key, result)` is appended. -/
def reduceLoop (reduceFunc : String → List String → String) :
    List (String × List String) → List KeyValue → Except GoErr (List KeyValue)
  | [], acc => Except.ok acc
  | (key, values) :: rest, acc =>
    let newValue := reduceFunc key values
    if newValue = "error" then Except.error GoErr.reduceFnErr
    else reduceLoop reduceFunc rest (acc ++ [⟨key, newValue⟩])

/-- DoReduce.go lines 154-174: JSON-encode the result pairs one by one
(running index `k`); only a fault can make this fail. -/
def encodeLoop (fl : ReduceFaults) : Nat → List KeyValue → Option GoErr
  | _, [] => none
  | k, _ :: rest =>
    if fl.encodeErr k then some GoErr.encodeErr else encodeLoop fl (k + 1) rest

/-- DoReduce.go lines 181-220: stat the merge name, remove it if it
exists, then create the merge file and write the encoding.  Returns
the filesystem, the created file's name if creation succeeded (Go's
`outFile` being non-nil), and the error if any step failed. -/
def mergeWrite (jobName : String) (reduceTask : Nat) (fl : ReduceFaults)
    (fs : FS) (content : List KeyValue) : FS × Option FName × Option GoErr :=
  let name := mergeName jobName reduceTask
  if fl.mergeStatErr then (fs, none, some GoErr.statErr)
  else if containsFS fs name then
    if fl.mergeRemoveErr then (fs, none, some GoErr.removeErr)
    else if fl.mergeCreateErr then (eraseFS fs name, none, some GoErr.createErr)
    else (createFS (eraseFS fs name) name content, some name, none)
  else if fl.mergeCreateErr then (fs, none, some GoErr.createErr)
  else (createFS fs name content, some name, none)

/-- Observable outcome of one `doReduce` invocation: the resulting
filesystem, the error printed to standard output (DoReduce.go line 248)
if any, and the value returned to the caller (the Go function declares
no results, so this is always `none`). -/
structure ReduceOut where
  fs : FS
  printed : Option GoErr
  ret : Option GoErr

/-- DoReduce.go lines 48-250: decode the shard files for this reduce
index, group values by key, invoke the user reduce function per grouped
entry, JSON-encode the results and write the merge file; on any error,
run the failure handler (which, when the merge file was not created,
removes nothing) and print the error.  `reorder` models Go's
unspecified `map` iteration order at line 135: theorems constrain it to
a permutation of the grouped entries.  `fl` injects operating-system
faults. -/
def doReduce (jobName : String) (reduceTaskNumber : Nat) (nMap : Nat)
    (reduceFunc : String → List String → String)
    (reorder : List (String × List String) → List (String × List String))
    (fl : ReduceFaults) (fs : FS) : ReduceOut :=
  match readLoop jobName reduceTaskNumber fl fs 0 nMap [] with
  | Except.error e => { fs := fs, printed := some e, ret := none }
  | Except.ok keyValues =>
    let keyValuesMap := buildGroups keyValues
    match reduceLoop reduceFunc (reorder keyValuesMap) [] with
    | Except.error e => { fs := fs, printed := some e, ret := none }
    | Except.ok newKeyValues =>
      match encodeLoop fl 0 newKeyValues with
      | some e => { fs := fs, printed := some e, ret := none }
      | none =>
        match mergeWrite jobName reduceTaskNumber fl fs newKeyValues with
        | (fs1, _, none) => { fs := fs1, printed := none, ret := none }
        | (fs1, _, some e) => { fs := fs1, printed := some e, ret := none }

/-- Shard `i`'s records as determined by the Partitioner: the pairs of
the map transform's output whose key hashes to `i` modulo `nReduce`,
in output order. -/
def shardSpec (kvs : List KeyValue) (n : Nat) (i : Nat) : List KeyValue :=
  kvs.filter (fun kv => decide (ihash kv.Key % n = i))

/-- Pure partition fold extracted from the no-fault run of
`partitionEncodeLoop`. -/
def partFold (n : Nat) : List KeyValue → List (List KeyValue) → List (List KeyValue)
  | [], bufs => bufs
  | kv :: rest, bufs =>
    partFold n rest
      (bufs.set (ihash kv.Key % n) (bufs.getD (ihash kv.Key % n) [] ++ [kv]))

/-- The block of shard files written by a successful map task: one
entry per shard buffer, named by ascending shard index starting at `i`. -/
def shardBlock (jobName : String) (mapTask : Nat) : List (List KeyValue) → Nat → FS
  | [], _ => []
  | enc :: rest, i =>
    (reduceName jobName mapTask i, enc) :: shardBlock jobName mapTask rest (i + 1)

/-- Remove from the filesystem every file whose name is in `ns`. -/
def eraseListFS (fs : FS) (ns : List FName) : FS :=
  fs.filter (fun p => decide (p.1 ∉ ns))

/-- Whether a file name is a shard file of the given map task. -/
def isTaskShard (job : String) (task : Nat) : FName → Bool
  | FName.shard j m _ => decide (j = job) && decide (m = task)
  | FName.merge _ _ => false

/-- The values grouped under key `k`: the values of the pairs whose key
is `k`, in encounter order. -/
def valsOf (k : String) (kvs : List KeyValue) : List String :=
  (kvs.filter (fun kv => decide (kv.Key = k))).map KeyValue.Value

/-! ### Basic list and filesystem lemmas -/

/-- Setting index `i` then reading index `i` with a default yields the
written element when `i` is in bounds. -/
theorem getD_set_self {α : Type} (l : List α) (i : Nat) (x d : α)
    (h : i < l.length) : (l.set i x).getD i d = x := by
  rw [List.getD_eq_getElem?_getD, List.getElem?_set_self h]
  rfl

/-- Setting index `i` does not change reads at a different index. -/
theorem getD_set_ne {α : Type} (l : List α) (i j : Nat) (x d : α)
    (h : i ≠ j) : (l.set i x).getD j d = l.getD j d := by
  rw [List.getD_eq_getElem?_getD, List.getElem?_set_ne h, List.getD_eq_getElem?_getD]

/-- Reading a replicated list of empty buffers yields an empty buffer. -/
theorem getD_replicate_nil (n i : Nat) :
    (List.replicate n ([] : List KeyValue)).getD i [] = [] := by
  rw [List.getD_eq_getElem?_getD, List.getElem?_replicate]
  split <;> rfl

/-- A lookup in a list none of whose entries carry the name is `none`. -/
theorem lookupFS_eq_none (a : FS) (n : FName) (h : ∀ p ∈ a, p.1 ≠ n) :
    lookupFS a n = none := by
  induction a with
  | nil => rfl
  | cons p rest ih =>
    show (if p.1 = n then some p.2 else lookupFS rest n) = none
    rw [if_neg (h p (List.mem_cons_self p rest))]
    exact ih fun q hq => h q (List.mem_cons_of_mem p hq)

/-- A lookup over an append falls through to the right part when the
left part misses. -/
theorem lookupFS_append_right (a b : FS) (n : FName)
    (h : lookupFS a n = none) : lookupFS (a ++ b) n = lookupFS b n := by
  induction a with
  | nil => rfl
  | cons p rest ih =>
    have hp : ¬p.1 = n := by
      intro he
      have : lookupFS (p :: rest) n = some p.2 := by
        show (if p.1 = n then some p.2 else lookupFS rest n) = some p.2
        rw [if_pos he]
      rw [h] at this
      exact Option.noConfusion this
    have hrest : lookupFS rest n = none := by
      have := h
      show lookupFS rest n = none
      rw [show lookupFS (p :: rest) n = lookupFS rest n from by
        show (if p.1 = n then some p.2 else lookupFS rest n) = lookupFS rest n
        rw [if_neg hp]] at this
      exact this
    show (if p.1 = n then some p.2 else lookupFS (rest ++ b) n) = lookupFS b n
    rw [if_neg hp, ih hrest]

/-- Erasing a name twice is the same as erasing it once. -/
theorem eraseFS_eraseFS (fs : FS) (n : FName) :
    eraseFS (eraseFS fs n) n = eraseFS fs n := by
  unfold eraseFS
  rw [List.filter_filter]
  apply List.filter_congr
  intro p _
  by_cases h : p.1 = n <;> simp [h]

/-- Erasing the empty name list is the identity. -/
theorem eraseListFS_nil (fs : FS) : eraseListFS fs [] = fs := by
  unfold eraseListFS
  apply List.filter_eq_self.mpr
  intro p _
  simp

/-- Erasing a name list distributes over append. -/
theorem eraseListFS_append (a b : FS) (ns : List FName) :
    eraseListFS (a ++ b) ns = eraseListFS a ns ++ eraseListFS b ns :=
  List.filter_append a b

/-- Erasing one name and then a name list is erasing the extended list. -/
theorem eraseListFS_eraseFS (fs : FS) (n : FName) (ns : List FName) :
    eraseListFS (eraseFS fs n) ns = eraseListFS fs (n :: ns) := by
  unfold eraseListFS eraseFS
  rw [List.filter_filter]
  apply List.filter_congr
  intro p _
  by_cases h1 : p.1 = n <;> by_cases h2 : p.1 ∈ ns <;> simp [h1, h2]

/-- A singleton file whose name avoids the erased list survives. -/
theorem eraseListFS_singleton (n : FName) (c : List KeyValue) (ns : List FName)
    (h : n ∉ ns) : eraseListFS [(n, c)] ns = [(n, c)] := by
  unfold eraseListFS
  rw [List.filter_cons]
  simp [h]

/-- Entries of an erased filesystem come from the original and avoid
the erased names. -/
theorem mem_eraseListFS (fs : FS) (ns : List FName) (p : FName × List KeyValue)
    (h : p ∈ eraseListFS fs ns) : p ∈ fs ∧ p.1 ∉ ns := by
  have := List.mem_filter.mp h
  refine ⟨this.1, ?_⟩
  have := this.2
  simpa using this

/-- Looking up an erased name yields `none`. -/
theorem lookupFS_eraseListFS (fs : FS) (ns : List FName) (n : FName)
    (h : n ∈ ns) : lookupFS (eraseListFS fs ns) n = none := by
  apply lookupFS_eq_none
  intro p hp he
  exact (mem_eraseListFS fs ns p hp).2 (he ▸ h)

/-- Erasing all of a filesystem's own names empties it. -/
theorem eraseListFS_self (b : FS) (ns : List FName)
    (h : ∀ p ∈ b, p.1 ∈ ns) : eraseListFS b ns = [] := by
  apply List.filter_eq_nil_iff.mpr
  intro p hp
  simp [h p hp]

/-- Erasing the same name list twice is erasing it once. -/
theorem eraseListFS_idem (fs : FS) (ns : List FName) :
    eraseListFS (eraseListFS fs ns) ns = eraseListFS fs ns := by
  unfold eraseListFS
  rw [List.filter_filter]
  apply List.filter_congr
  intro p _
  by_cases h : p.1 ∈ ns <;> simp [h]

/-! ### The partition phase -/

/-- With no injected faults and a positive shard count, the
partition-and-encode loop succeeds and computes the pure fold. -/
theorem partitionEncodeLoop_noFault (n : Nat) (hn : n ≠ 0) (kvs : List KeyValue) :
    ∀ (k : Nat) (bufs : List (List KeyValue)),
    partitionEncodeLoop n noMapFaults k kvs bufs = PartOut.ok (partFold n kvs bufs) := by
  induction kvs with
  | nil => intro k bufs; rfl
  | cons kv rest ih =>
    intro k bufs
    simp only [partitionEncodeLoop, partFold, noMapFaults, if_neg hn]
    exact ih (k + 1) _

/-- The partition fold preserves the number of buffers. -/
theorem partFold_length (n : Nat) (kvs : List KeyValue) :
    ∀ bufs, (partFold n kvs bufs).length = bufs.length := by
  induction kvs with
  | nil => intro bufs; rfl
  | cons kv rest ih =>
    intro bufs
    simp only [partFold]
    rw [ih, List.length_set]

/-- Buffer `i` after the partition fold is the original buffer followed
by exactly the pairs whose key hashes to `i`, in input order. -/
theorem partFold_getD (n : Nat) (hn : 0 < n) (kvs : List KeyValue) :
    ∀ (bufs : List (List KeyValue)), bufs.length = n → ∀ i, i < n →
    (partFold n kvs bufs).getD i [] = bufs.getD i [] ++ shardSpec kvs n i := by
  induction kvs with
  | nil =>
    intro bufs _ i _
    simp [partFold, shardSpec]
  | cons kv rest ih =>
    intro bufs hl i hi
    have hj : ihash kv.Key % n < n := Nat.mod_lt _ hn
    simp only [partFold]
    rw [ih _ (by rw [List.length_set]; exact hl) i hi]
    by_cases hij : ihash kv.Key % n = i
    · rw [hij, getD_set_self _ _ _ _ (by rw [hl]; exact hi)]
      simp only [shardSpec, List.filter_cons]
      rw [if_pos (by simpa using hij)]
      rw [List.append_assoc]
      rfl
    · rw [getD_set_ne _ _ _ _ _ hij]
      simp only [shardSpec, List.filter_cons]
      rw [if_neg (by simpa using hij)]

/-- Each shard's record count relative to the transform output. -/
theorem shardSpec_count (kvs : List KeyValue) (n i : Nat) (a : KeyValue) :
    (shardSpec kvs n i).count a =
      if ihash a.Key % n = i then kvs.count a else 0 := by
  by_cases h : ihash a.Key % n = i
  · rw [if_pos h]
    exact List.count_filter (by simpa using h)
  · rw [if_neg h]
    rw [List.count_eq_zero]
    intro hm
    have := (List.mem_filter.mp hm).2
    exact h (by simpa using this)

/-- Summing an indicator over `range n` picks out the single index. -/
theorem sum_map_range_ite (c : Nat) :
    ∀ (n j : Nat), j < n →
    ((List.range n).map (fun i => if j = i then c else 0)).sum = c := by
  intro n
  induction n with
  | zero => intro j h; exact absurd h (Nat.not_lt_zero j)
  | succ m ih =>
    intro j h
    rw [List.range_succ, List.map_append, List.sum_append]
    by_cases hj : j = m
    · subst hj
      have h0 : ((List.range j).map (fun i => if j = i then c else 0)).sum = 0 := by
        apply List.sum_eq_zero
        intro x hx
        rcases List.mem_map.mp hx with ⟨i, hi, rfl⟩
        have hij : i < j := List.mem_range.mp hi
        simp [Nat.ne_of_gt hij]
      simp [h0]
    · have hjm : j < m := by omega
      rw [ih j hjm]
      simp [hj]

/-- Conservation: the concatenation of all shards is a permutation of
the map transform's output. -/
theorem flatten_shardSpec_perm (kvs : List KeyValue) (n : Nat) (hn : 0 < n) :
    List.Perm ((List.range n).map (shardSpec kvs n)).flatten kvs := by
  rw [List.perm_iff_count]
  intro a
  rw [List.count_flatten, List.map_map]
  have hcong : (List.range n).map (List.count a ∘ shardSpec kvs n) =
      (List.range n).map (fun i => if ihash a.Key % n = i then kvs.count a else 0) := by
    apply List.map_congr_left
    intro i _
    exact shardSpec_count kvs n i a
  rw [hcong, sum_map_range_ite _ n _ (Nat.mod_lt _ hn)]

/-! ### The shard-file creation phase -/

/-- Length of the shard block. -/
theorem shardBlock_length (job : String) (task : Nat)
    (encs : List (List KeyValue)) :
    ∀ i, (shardBlock job task encs i).length = encs.length := by
  induction encs with
  | nil => intro i; rfl
  | cons enc rest ih =>
    intro i
    simp only [shardBlock, List.length_cons, ih]

/-- Every name in the shard block is a shard name with index at least
the starting index. -/
theorem mem_shardBlock_names (job : String) (task : Nat)
    (encs : List (List KeyValue)) :
    ∀ i n', n' ∈ (shardBlock job task encs i).map Prod.fst →
      ∃ jdx, i ≤ jdx ∧ n' = reduceName job task jdx := by
  induction encs with
  | nil => intro i n' h; simp [shardBlock] at h
  | cons enc rest ih =>
    intro i n' h
    simp only [shardBlock, List.map_cons, List.mem_cons] at h
    rcases h with h | h
    · exact ⟨i, Nat.le_refl i, h⟩
    · rcases ih (i + 1) n' h with ⟨jdx, hle, he⟩
      exact ⟨jdx, by omega, he⟩

/-- Every shard index below the block length names a block entry. -/
theorem shardBlock_fst_mem (job : String) (task : Nat)
    (encs : List (List KeyValue)) :
    ∀ i jdx, jdx < encs.length →
      reduceName job task (i + jdx) ∈ (shardBlock job task encs i).map Prod.fst := by
  induction encs with
  | nil => intro i jdx h; exact absurd h (Nat.not_lt_zero jdx)
  | cons enc rest ih =>
    intro i jdx h
    simp only [shardBlock, List.map_cons, List.mem_cons]
    cases jdx with
    | zero => left; rfl
    | succ j =>
      right
      have := ih (i + 1) j (by simpa using h)
      rw [show i + 1 + j = i + (j + 1) from by omega] at this
      exact this

/-- Every block entry's name is a shard name of this task. -/
theorem mem_shardBlock_isTaskShard (job : String) (task : Nat)
    (encs : List (List KeyValue)) :
    ∀ i p, p ∈ shardBlock job task encs i → isTaskShard job task p.1 = true := by
  induction encs with
  | nil => intro i p h; simp [shardBlock] at h
  | cons enc rest ih =>
    intro i p h
    simp only [shardBlock, List.mem_cons] at h
    rcases h with h | h
    · rw [h]
      simp [isTaskShard, reduceName]
    · exact ih (i + 1) p h

/-- Lookup inside the shard block. -/
theorem lookupFS_shardBlock (job : String) (task : Nat)
    (encs : List (List KeyValue)) :
    ∀ i jdx, jdx < encs.length →
      lookupFS (shardBlock job task encs i) (reduceName job task (i + jdx)) =
        some (encs.getD jdx []) := by
  induction encs with
  | nil => intro i jdx h; exact absurd h (Nat.not_lt_zero jdx)
  | cons enc rest ih =>
    intro i jdx h
    cases jdx with
    | zero =>
      simp [shardBlock, lookupFS]
    | succ j =>
      simp only [shardBlock, lookupFS]
      rw [if_neg (by simp only [reduceName, FName.shard.injEq]; omega)]
      have := ih (i + 1) j (by simpa using h)
      rw [show i + 1 + j = i + (j + 1) from by omega] at this
      simpa using this

/-- With no injected faults, the creation loop succeeds: it removes any
pre-existing files at the block's names and appends the block, and the
created-file list is exactly the block's names. -/
theorem createLoop_noFault (job : String) (task : Nat)
    (encs : List (List KeyValue)) :
    ∀ (i : Nat) (fs : FS) (created : List FName),
    createLoop job task noMapFaults encs i fs created =
      (eraseListFS fs ((shardBlock job task encs i).map Prod.fst) ++
         shardBlock job task encs i,
       created ++ (shardBlock job task encs i).map Prod.fst, none) := by
  induction encs with
  | nil =>
    intro i fs created
    simp [createLoop, shardBlock, eraseListFS_nil]
  | cons enc rest ih =>
    intro i fs created
    have hnm : reduceName job task i ∉ (shardBlock job task rest (i + 1)).map Prod.fst := by
      intro hmem
      rcases mem_shardBlock_names job task rest (i + 1) _ hmem with ⟨jdx, hle, he⟩
      have : i = jdx := by
        have := he
        simp [reduceName] at this
        exact this
      omega
    have hfs : ∀ fs' : FS,
        eraseListFS (createFS fs' (reduceName job task i) enc)
            ((shardBlock job task rest (i + 1)).map Prod.fst) ++
          shardBlock job task rest (i + 1) =
        eraseListFS fs'
            ((shardBlock job task (enc :: rest) i).map Prod.fst) ++
          shardBlock job task (enc :: rest) i := by
      intro fs'
      unfold createFS
      rw [eraseListFS_append, eraseListFS_eraseFS,
        eraseListFS_singleton _ _ _ hnm]
      simp only [shardBlock, List.map_cons, List.append_assoc, List.singleton_append]
    cases hc : containsFS fs (reduceName job task i) with
    | true =>
      have step : createLoop job task noMapFaults (enc :: rest) i fs created =
          createLoop job task noMapFaults rest (i + 1)
            (createFS (eraseFS fs (reduceName job task i)) (reduceName job task i) enc)
            (created ++ [reduceName job task i]) := by
        simp [createLoop, noMapFaults, hc]
      rw [step]
      rw [ih (i + 1) _ (created ++ [reduceName job task i])]
      rw [show createFS (eraseFS fs (reduceName job task i)) (reduceName job task i) enc =
            createFS fs (reduceName job task i) enc from by
        unfold createFS
        rw [eraseFS_eraseFS]]
      rw [hfs fs]
      simp only [shardBlock, List.map_cons, List.append_assoc, List.singleton_append]
    | false =>
      have step : createLoop job task noMapFaults (enc :: rest) i fs created =
          createLoop job task noMapFaults rest (i + 1)
            (createFS fs (reduceName job task i) enc)
            (created ++ [reduceName job task i]) := by
        simp [createLoop, noMapFaults, hc]
      rw [step]
      rw [ih (i + 1) _ (created ++ [reduceName job task i])]
      rw [hfs fs]
      simp only [shardBlock, List.map_cons, List.append_assoc, List.singleton_append]

/-- The fault-free run of `doMap` with a positive shard count: it
always succeeds, replaces any pre-existing files at this task's shard
names, and appends the task's shard block. -/
theorem doMap_noFault (job : String) (task : Nat) (inF c : String) (n : Nat)
    (hn : 0 < n) (mf : String → String → List KeyValue) (fs : FS) :
    doMap job task inF c n mf noMapFaults fs =
      { fs := eraseListFS fs
            ((shardBlock job task (partFold n (mf inF c) (List.replicate n [])) 0).map
              Prod.fst) ++
          shardBlock job task (partFold n (mf inF c) (List.replicate n [])) 0,
        printed := none, ret := none, panicMsg := none,
        created :=
          (shardBlock job task (partFold n (mf inF c) (List.replicate n [])) 0).map
            Prod.fst } := by
  unfold doMap
  rw [if_neg (by simp [noMapFaults])]
  rw [partitionEncodeLoop_noFault n (Nat.pos_iff_ne_zero.mp hn) (mf inF c) 0
    (List.replicate n [])]
  simp only [createLoop_noFault, List.nil_append]

/-- Looking up shard `i` in the filesystem a successful map run leaves
behind yields buffer `i` of the encoded block. -/
theorem lookupFS_afterMap (fs : FS) (job : String) (task : Nat)
    (encs : List (List KeyValue)) (i : Nat) (hi : i < encs.length) :
    lookupFS (eraseListFS fs ((shardBlock job task encs 0).map Prod.fst) ++
        shardBlock job task encs 0)
      (reduceName job task i) = some (encs.getD i []) := by
  have hmem : reduceName job task i ∈ (shardBlock job task encs 0).map Prod.fst := by
    have := shardBlock_fst_mem job task encs 0 i hi
    simpa using this
  rw [lookupFS_append_right _ _ _ (lookupFS_eraseListFS fs _ _ hmem)]
  have := lookupFS_shardBlock job task encs 0 i hi
  rw [Nat.zero_add] at this
  exact this

/-- The shard buffers computed by a fault-free partition phase. -/
theorem partFold_replicate_getD (n : Nat) (hn : 0 < n) (kvs : List KeyValue)
    (i : Nat) (hi : i < n) :
    (partFold n kvs (List.replicate n [])).getD i [] = shardSpec kvs n i := by
  rw [partFold_getD n hn kvs (List.replicate n []) (List.length_replicate n []) i hi]
  rw [getD_replicate_nil]
  rfl

/-- Length of the shard buffer list computed by the partition phase. -/
theorem partFold_replicate_length (n : Nat) (kvs : List KeyValue) :
    (partFold n kvs (List.replicate n [])).length = n := by
  rw [partFold_length, List.length_replicate]

/-! ### Map-side claims -/

/-- Claim C1: a fault-free map task invocation with a positive shard
count completes successfully (no panic, no error printed); shard file
`i` then holds exactly the pairs of the user map transform's output
whose key hashes (`ihash` modulo `nReduce`) to `i`, in the transform's
output order — so each pair lands in exactly one shard and per-shard
relative order is preserved — and the concatenation of all `nReduce`
shard files is a permutation (multiset equality) of the transform's
output: nothing lost, duplicated or fabricated. -/
theorem C1_map_conservation (job : String) (task : Nat) (inF c : String)
    (n : Nat) (mf : String → String → List KeyValue) (fs : FS) (hn : 0 < n) :
    (doMap job task inF c n mf noMapFaults fs).panicMsg = none ∧
    (doMap job task inF c n mf noMapFaults fs).printed = none ∧
    (∀ i, i < n →
      lookupFS (doMap job task inF c n mf noMapFaults fs).fs (reduceName job task i) =
        some (shardSpec (mf inF c) n i)) ∧
    List.Perm ((List.range n).map (shardSpec (mf inF c) n)).flatten (mf inF c) := by
  rw [doMap_noFault job task inF c n hn mf fs]
  refine ⟨rfl, rfl, ?_, flatten_shardSpec_perm (mf inF c) n hn⟩
  intro i hi
  rw [lookupFS_afterMap fs job task _ i
    (by rw [partFold_replicate_length]; exact hi)]
  rw [partFold_replicate_getD n hn (mf inF c) i hi]

/-- Witness for C1 at a concrete map task with two shards and three
emitted pairs. -/
theorem C1_map_conservation_witness :
    0 < 2 ∧
    ((doMap "job" 7 "in" "txt" 2
        (fun _ _ => [⟨"a", "1"⟩, ⟨"b", "2"⟩, ⟨"a", "3"⟩]) noMapFaults []).panicMsg = none ∧
     (doMap "job" 7 "in" "txt" 2
        (fun _ _ => [⟨"a", "1"⟩, ⟨"b", "2"⟩, ⟨"a", "3"⟩]) noMapFaults []).printed = none ∧
     (∀ i, i < 2 →
       lookupFS (doMap "job" 7 "in" "txt" 2
           (fun _ _ => [⟨"a", "1"⟩, ⟨"b", "2"⟩, ⟨"a", "3"⟩]) noMapFaults []).fs
           (reduceName "job" 7 i) =
         some (shardSpec [⟨"a", "1"⟩, ⟨"b", "2"⟩, ⟨"a", "3"⟩] 2 i)) ∧
     List.Perm
       ((List.range 2).map (shardSpec [⟨"a", "1"⟩, ⟨"b", "2"⟩, ⟨"a", "3"⟩] 2)).flatten
       [⟨"a", "1"⟩, ⟨"b", "2"⟩, ⟨"a", "3"⟩]) :=
  ⟨by decide,
   C1_map_conservation "job" 7 "in" "txt" 2
     (fun _ _ => [⟨"a", "1"⟩, ⟨"b", "2"⟩, ⟨"a", "3"⟩]) [] (by decide)⟩

/-- Claim C2 (code bug, concrete evaluation): a map task with
`nReduce = 4` whose `os.Create` fails on shard 2 leaves shards 0 and 1
on disk after the failed invocation.  The cleanup loop of DoMap.go
lines 178-201 calls `Stat` on handles that were closed at line 170;
that call errors (`use of closed file`), so the `os.Remove` branch is
never reached, no created file is deleted, and the printed error is the
closed-handle stat error instead of the original create error. -/
theorem C2_cleanup_leaves_created_shards :
    (doMap "job" 0 "in" "" 4 (fun _ _ => [])
        ⟨false, fun _ => false, fun _ => false, fun _ => false, fun i => decide (i = 2)⟩
        []).fs =
      [(reduceName "job" 0 0, []), (reduceName "job" 0 1, [])] ∧
    (doMap "job" 0 "in" "" 4 (fun _ _ => [])
        ⟨false, fun _ => false, fun _ => false, fun _ => false, fun i => decide (i = 2)⟩
        []).printed = some GoErr.statClosed ∧
    (doMap "job" 0 "in" "" 4 (fun _ _ => [])
        ⟨false, fun _ => false, fun _ => false, fun _ => false, fun i => decide (i = 2)⟩
        []).created = [reduceName "job" 0 0, reduceName "job" 0 1] := by
  decide

/-- Claim C6 (corrected): the map executor has no guard on
`nReduce <= 0`.  For every positive shard count the Partitioner's
index `ihash(key) % nReduce` lies in `[0, nReduce)`; but with
`nReduce = 0` and a transform emitting at least one pair, the
partitioning step evaluates `% 0` and the invocation ends in a Go
runtime panic (integer divide by zero) rather than failing fast with a
contract error. -/
theorem C6_partition_range_and_zero_panic (s : String) (n : Nat) (hn : 0 < n)
    (job : String) (task : Nat) (inF c : String)
    (mf : String → String → List KeyValue) (fl : MapFaults) (fs : FS)
    (hr : fl.readErr = false) (hne : mf inF c ≠ []) :
    ihash s % n < n ∧
    (doMap job task inF c 0 mf fl fs).panicMsg = some divideByZeroMsg := by
  refine ⟨Nat.mod_lt _ hn, ?_⟩
  unfold doMap
  rw [if_neg (by simp [hr])]
  rcases hkv : mf inF c with _ | ⟨kv, rest⟩
  · exact absurd hkv hne
  · simp [partitionEncodeLoop]

/-- Witness for C6 at a concrete key and shard count. -/
theorem C6_partition_range_and_zero_panic_witness :
    0 < 2 ∧ noMapFaults.readErr = false ∧
    ((fun (_ _ : String) => [(⟨"a", "1"⟩ : KeyValue)]) "in" "" ≠ []) ∧
    (ihash "a" % 2 < 2 ∧
      (doMap "j" 0 "in" "" 0 (fun _ _ => [(⟨"a", "1"⟩ : KeyValue)])
        noMapFaults []).panicMsg = some divideByZeroMsg) :=
  ⟨by decide, rfl, by decide,
   C6_partition_range_and_zero_panic "a" 2 (by decide) "j" 0 "in" ""
     (fun _ _ => [(⟨"a", "1"⟩ : KeyValue)]) noMapFaults [] rfl (by decide)⟩

/-- Claim C6's counterexample: with `nReduce = 0` and one emitted pair
the invocation panics with the divide-by-zero runtime error — the
partitioning step performs the modulo by zero instead of failing fast —
and nothing is printed as a contract-violation failure. -/
theorem C6_no_fail_fast_counterexample :
    (doMap "j" 0 "in" "" 0 (fun _ _ => [(⟨"a", "1"⟩ : KeyValue)])
        noMapFaults []).panicMsg = some divideByZeroMsg ∧
    (doMap "j" 0 "in" "" 0 (fun _ _ => [(⟨"a", "1"⟩ : KeyValue)])
        noMapFaults []).printed = none := by
  decide

/-- Claim C9: re-running a successful map task is idempotent.  Both
fault-free runs succeed; the second run's filesystem equals the
first's (contents match the second run only — nothing is duplicated or
appended, because each output file is stat'ed, removed if present, and
re-created); each of the `nReduce` shard files holds the second run's
encoding; and, starting from a filesystem holding no shard file of
this task, exactly `nReduce` shard files of this task exist
afterwards. -/
theorem C9_idempotent_rerun (job : String) (task : Nat) (inF c : String)
    (n : Nat) (mf : String → String → List KeyValue) (fs0 : FS) (hn : 0 < n)
    (hclean : ∀ p ∈ fs0, isTaskShard job task p.1 = false) :
    (doMap job task inF c n mf noMapFaults fs0).printed = none ∧
    (doMap job task inF c n mf noMapFaults
        (doMap job task inF c n mf noMapFaults fs0).fs).printed = none ∧
    (doMap job task inF c n mf noMapFaults
        (doMap job task inF c n mf noMapFaults fs0).fs).fs =
      (doMap job task inF c n mf noMapFaults fs0).fs ∧
    (∀ i, i < n →
      lookupFS (doMap job task inF c n mf noMapFaults
          (doMap job task inF c n mf noMapFaults fs0).fs).fs
          (reduceName job task i) =
        some (shardSpec (mf inF c) n i)) ∧
    ((doMap job task inF c n mf noMapFaults fs0).fs.filter
        (fun p => isTaskShard job task p.1)).length = n := by
  rw [doMap_noFault job task inF c n hn mf fs0]
  rw [doMap_noFault job task inF c n hn mf _]
  set encs := partFold n (mf inF c) (List.replicate n []) with hencs
  set blk := shardBlock job task encs 0 with hblk
  have hfs2 : eraseListFS (eraseListFS fs0 (blk.map Prod.fst) ++ blk)
      (blk.map Prod.fst) ++ blk = eraseListFS fs0 (blk.map Prod.fst) ++ blk := by
    rw [eraseListFS_append, eraseListFS_idem,
      eraseListFS_self blk _ (fun p hp => List.mem_map_of_mem Prod.fst hp)]
    rw [List.append_nil]
  refine ⟨rfl, rfl, hfs2, ?_, ?_⟩
  · intro i hi
    rw [hfs2]
    rw [hblk]
    rw [lookupFS_afterMap fs0 job task encs i
      (by rw [hencs, partFold_replicate_length]; exact hi)]
    rw [hencs, partFold_replicate_getD n hn (mf inF c) i hi]
  · rw [List.filter_append]
    have h1 : (eraseListFS fs0 (blk.map Prod.fst)).filter
        (fun p => isTaskShard job task p.1) = [] := by
      apply List.filter_eq_nil_iff.mpr
      intro p hp
      have := (mem_eraseListFS fs0 _ p hp).1
      simp [hclean p this]
    have h2 : blk.filter (fun p => isTaskShard job task p.1) = blk := by
      apply List.filter_eq_self.mpr
      intro p hp
      exact mem_shardBlock_isTaskShard job task encs 0 p hp
    rw [h1, h2, List.nil_append, hblk, shardBlock_length, hencs,
      partFold_replicate_length]

/-- Witness for C9 at a concrete one-shard map task started on an
empty filesystem. -/
theorem C9_idempotent_rerun_witness :
    0 < 1 ∧ (∀ p ∈ ([] : FS), isTaskShard "j" 0 p.1 = false) ∧
    ((doMap "j" 0 "in" "" 1 (fun _ _ => [(⟨"a", "1"⟩ : KeyValue)]) noMapFaults []).printed = none ∧
     (doMap "j" 0 "in" "" 1 (fun _ _ => [(⟨"a", "1"⟩ : KeyValue)]) noMapFaults
        (doMap "j" 0 "in" "" 1 (fun _ _ => [(⟨"a", "1"⟩ : KeyValue)]) noMapFaults []).fs).printed = none ∧
     (doMap "j" 0 "in" "" 1 (fun _ _ => [(⟨"a", "1"⟩ : KeyValue)]) noMapFaults
        (doMap "j" 0 "in" "" 1 (fun _ _ => [(⟨"a", "1"⟩ : KeyValue)]) noMapFaults []).fs).fs =
       (doMap "j" 0 "in" "" 1 (fun _ _ => [(⟨"a", "1"⟩ : KeyValue)]) noMapFaults []).fs ∧
     (∀ i, i < 1 →
       lookupFS (doMap "j" 0 "in" "" 1 (fun _ _ => [(⟨"a", "1"⟩ : KeyValue)]) noMapFaults
           (doMap "j" 0 "in" "" 1 (fun _ _ => [(⟨"a", "1"⟩ : KeyValue)]) noMapFaults []).fs).fs
           (reduceName "j" 0 i) =
         some (shardSpec [(⟨"a", "1"⟩ : KeyValue)] 1 i)) ∧
     ((doMap "j" 0 "in" "" 1 (fun _ _ => [(⟨"a", "1"⟩ : KeyValue)]) noMapFaults []).fs.filter
         (fun p => isTaskShard "j" 0 p.1)).length = 1) :=
  ⟨by decide, by decide,
   C9_idempotent_rerun "j" 0 "in" "" 1 (fun _ _ => [(⟨"a", "1"⟩ : KeyValue)]) []
     (by decide) (by decide)⟩

/-- Claim C10: a fault-free map task invocation with `nReduce > 0`
creates one shard file for every index in `[0, nReduce)` — a shard
that received no pairs is present with empty content, never omitted —
and, starting from a filesystem holding no shard file of this task,
exactly `nReduce` shard files of this task exist afterwards. -/
theorem C10_all_shards_created (job : String) (task : Nat) (inF c : String)
    (n : Nat) (mf : String → String → List KeyValue) (fs0 : FS) (hn : 0 < n)
    (hclean : ∀ p ∈ fs0, isTaskShard job task p.1 = false) :
    (doMap job task inF c n mf noMapFaults fs0).panicMsg = none ∧
    (doMap job task inF c n mf noMapFaults fs0).printed = none ∧
    (∀ i, i < n →
      lookupFS (doMap job task inF c n mf noMapFaults fs0).fs
          (reduceName job task i) = some (shardSpec (mf inF c) n i)) ∧
    ((doMap job task inF c n mf noMapFaults fs0).fs.filter
        (fun p => isTaskShard job task p.1)).length = n := by
  rw [doMap_noFault job task inF c n hn mf fs0]
  refine ⟨rfl, rfl, ?_, ?_⟩
  · intro i hi
    rw [lookupFS_afterMap fs0 job task _ i
      (by rw [partFold_replicate_length]; exact hi)]
    rw [partFold_replicate_getD n hn (mf inF c) i hi]
  · rw [List.filter_append]
    have h1 : (eraseListFS fs0
        ((shardBlock job task (partFold n (mf inF c) (List.replicate n [])) 0).map
          Prod.fst)).filter (fun p => isTaskShard job task p.1) = [] := by
      apply List.filter_eq_nil_iff.mpr
      intro p hp
      have := (mem_eraseListFS fs0 _ p hp).1
      simp [hclean p this]
    have h2 : (shardBlock job task (partFold n (mf inF c) (List.replicate n [])) 0).filter
        (fun p => isTaskShard job task p.1) =
        shardBlock job task (partFold n (mf inF c) (List.replicate n [])) 0 := by
      apply List.filter_eq_self.mpr
      intro p hp
      exact mem_shardBlock_isTaskShard job task _ 0 p hp
    rw [h1, h2, List.nil_append, shardBlock_length, partFold_replicate_length]

/-- Witness for C10 at a concrete map task with two shards, one of
which receives no pairs and is written as an empty file. -/
theorem C10_all_shards_created_witness :
    0 < 2 ∧ (∀ p ∈ ([] : FS), isTaskShard "j" 0 p.1 = false) ∧
    ((doMap "j" 0 "in" "" 2 (fun _ _ => [(⟨"a", "1"⟩ : KeyValue)]) noMapFaults []).panicMsg = none ∧
     (doMap "j" 0 "in" "" 2 (fun _ _ => [(⟨"a", "1"⟩ : KeyValue)]) noMapFaults []).printed = none ∧
     (∀ i, i < 2 →
       lookupFS (doMap "j" 0 "in" "" 2 (fun _ _ => [(⟨"a", "1"⟩ : KeyValue)]) noMapFaults []).fs
           (reduceName "j" 0 i) = some (shardSpec [(⟨"a", "1"⟩ : KeyValue)] 2 i)) ∧
     ((doMap "j" 0 "in" "" 2 (fun _ _ => [(⟨"a", "1"⟩ : KeyValue)]) noMapFaults []).fs.filter
         (fun p => isTaskShard "j" 0 p.1)).length = 2) :=
  ⟨by decide, by decide,
   C10_all_shards_created "j" 0 "in" "" 2 (fun _ _ => [(⟨"a", "1"⟩ : KeyValue)]) []
     (by decide) (by decide)⟩


/-! ### Reduce-side lemmas -/

/-- Looking up a just-created file yields its content. -/
theorem lookupFS_create_self (fs : FS) (n : FName) (c : List KeyValue) :
    lookupFS (eraseFS fs n ++ [(n, c)]) n = some c := by
  rw [lookupFS_append_right]
  · simp [lookupFS]
  · apply lookupFS_eq_none
    intro p hp
    have := List.mem_filter.mp hp
    simpa using this.2

/-- The fault-free reduce environment injects no stat fault. -/
theorem noReduceFaults_statErr (m : Nat) : noReduceFaults.statErr m = false := rfl

/-- The fault-free reduce environment injects no open fault. -/
theorem noReduceFaults_openErr (m : Nat) : noReduceFaults.openErr m = false := rfl

/-- The fault-free reduce environment injects no encode fault. -/
theorem noReduceFaults_encodeErr (k : Nat) : noReduceFaults.encodeErr k = false := rfl

/-- With no injected faults the decode loop succeeds and appends, in
ascending map-index order, the records of each present shard file,
skipping absent shards. -/
theorem readLoop_noFault (job : String) (r : Nat) (fs : FS) :
    ∀ (k m : Nat) (acc : List KeyValue),
    readLoop job r noReduceFaults fs m k acc =
      Except.ok (acc ++ readPure job r fs m k) := by
  intro k
  induction k with
  | zero => intro m acc; simp [readLoop, readPure]
  | succ k ih =>
    intro m acc
    cases h : lookupFS fs (reduceName job m r) with
    | none =>
      simp [readLoop, readPure, noReduceFaults_statErr, noReduceFaults_openErr, h, ih]
    | some content =>
      simp [readLoop, readPure, noReduceFaults_statErr, noReduceFaults_openErr, h, ih]

/-- Appending a value for key `k` makes `k`'s list grow by that value. -/
theorem lookupG_groupInsert_self (m : List (String × List String)) (k v : String) :
    lookupG (groupInsert m k v) k = some ((lookupG m k).getD [] ++ [v]) := by
  induction m with
  | nil => simp [groupInsert, lookupG]
  | cons p rest ih =>
    obtain ⟨k', vs⟩ := p
    by_cases h : k' = k
    · simp [groupInsert, lookupG, h]
    · simp [groupInsert, lookupG, h, ih]

/-- Appending a value for key `k` leaves other keys' lists unchanged. -/
theorem lookupG_groupInsert_ne (m : List (String × List String)) (k v k2 : String)
    (h : k2 ≠ k) : lookupG (groupInsert m k v) k2 = lookupG m k2 := by
  have h' : ¬(k = k2) := fun he => h he.symm
  induction m with
  | nil => simp [groupInsert, lookupG, h']
  | cons p rest ih =>
    obtain ⟨k', vs⟩ := p
    by_cases hk : k' = k
    · subst hk
      simp [groupInsert, lookupG, h']
    · by_cases hk2 : k' = k2
      · simp [groupInsert, lookupG, hk, hk2, h, h']
      · simp [groupInsert, lookupG, hk, hk2, ih]

/-- The key list after one grouping insertion. -/
theorem groupInsert_keys (m : List (String × List String)) (k v : String) :
    (groupInsert m k v).map Prod.fst =
      if k ∈ m.map Prod.fst then m.map Prod.fst else m.map Prod.fst ++ [k] := by
  induction m with
  | nil => simp [groupInsert]
  | cons p rest ih =>
    obtain ⟨k', vs⟩ := p
    by_cases h : k' = k
    · simp [groupInsert, h]
    · have hk' : ¬(k = k') := fun he => h he.symm
      simp only [groupInsert, if_neg h, List.map_cons]
      rw [ih]
      by_cases hm : k ∈ rest.map Prod.fst
      · simp [hm, hk']
      · simp [hm, hk']

/-- Grouping insertion preserves distinctness of keys. -/
theorem groupInsert_keys_nodup (m : List (String × List String)) (k v : String)
    (h : (m.map Prod.fst).Nodup) : ((groupInsert m k v).map Prod.fst).Nodup := by
  rw [groupInsert_keys]
  by_cases hm : k ∈ m.map Prod.fst
  · simpa [hm] using h
  · rw [if_neg hm, List.nodup_append]
    refine ⟨h, List.nodup_singleton k, ?_⟩
    intro a ha hb
    rw [List.mem_singleton] at hb
    exact hm (hb ▸ ha)

/-- A grouping lookup succeeds exactly for the listed keys. -/
theorem lookupG_isSome_iff (m : List (String × List String)) (k : String) :
    (lookupG m k).isSome = true ↔ k ∈ m.map Prod.fst := by
  induction m with
  | nil => simp [lookupG]
  | cons p rest ih =>
    obtain ⟨k', vs⟩ := p
    by_cases h : k' = k
    · simp [lookupG, h]
    · have h' : ¬(k = k') := fun he => h he.symm
      simp [lookupG, h, h', ih]

/-- In a grouping map with distinct keys, membership determines lookup. -/
theorem lookupG_of_mem_nodup (m : List (String × List String))
    (h : (m.map Prod.fst).Nodup) (p : String × List String) (hp : p ∈ m) :
    lookupG m p.1 = some p.2 := by
  induction m with
  | nil => cases hp
  | cons q rest ih =>
    rcases List.mem_cons.mp hp with he | hp'
    · subst he
      simp [lookupG]
    · have hcons : (q.1 :: rest.map Prod.fst).Nodup := by
        rw [List.map_cons] at h
        exact h
      have hnd := List.nodup_cons.mp hcons
      have hq : q.1 ≠ p.1 := by
        intro he
        have hmem : p.1 ∈ rest.map Prod.fst := List.mem_map_of_mem Prod.fst hp'
        rw [← he] at hmem
        exact hnd.1 hmem
      obtain ⟨k', vs⟩ := q
      simp only [lookupG, if_neg hq]
      exact ih hnd.2 hp'

/-- Folding the grouping step: a key's list after the fold is its list
before the fold extended by the key's values in the folded pairs. -/
theorem lookupG_foldl (kvs : List KeyValue) :
    ∀ (m0 : List (String × List String)) (k : String),
    lookupG (kvs.foldl (fun m kv => groupInsert m kv.Key kv.Value) m0) k =
      match lookupG m0 k with
      | some vs => some (vs ++ valsOf k kvs)
      | none => if k ∈ kvs.map KeyValue.Key then some (valsOf k kvs) else none := by
  induction kvs with
  | nil =>
    intro m0 k
    cases h : lookupG m0 k <;> simp [valsOf, h]
  | cons kv rest ih =>
    intro m0 k
    simp only [List.foldl_cons]
    rw [ih (groupInsert m0 kv.Key kv.Value) k]
    by_cases hk : kv.Key = k
    · rw [show lookupG (groupInsert m0 kv.Key kv.Value) k =
          some ((lookupG m0 k).getD [] ++ [kv.Value]) from hk ▸
            lookupG_groupInsert_self m0 kv.Key kv.Value]
      cases h : lookupG m0 k with
      | some vs =>
        simp [h, valsOf, List.filter_cons, hk]
      | none =>
        simp [h, valsOf, List.filter_cons, hk]
    · have hk' : ¬(k = kv.Key) := fun he => hk he.symm
      rw [lookupG_groupInsert_ne m0 kv.Key kv.Value k hk']
      cases h : lookupG m0 k with
      | some vs =>
        simp [h, valsOf, List.filter_cons, hk]
      | none =>
        simp [h, valsOf, List.filter_cons, hk, hk']

/-- The grouping map's keys are distinct: each distinct key has exactly
one entry. -/
theorem buildGroups_keys_nodup (kvs : List KeyValue) :
    ((buildGroups kvs).map Prod.fst).Nodup := by
  suffices h : ∀ m0 : List (String × List String), (m0.map Prod.fst).Nodup →
      ((kvs.foldl (fun m kv => groupInsert m kv.Key kv.Value) m0).map Prod.fst).Nodup by
    exact h [] List.nodup_nil
  induction kvs with
  | nil => intro m0 h; simpa using h
  | cons kv rest ih =>
    intro m0 h
    exact ih _ (groupInsert_keys_nodup m0 kv.Key kv.Value h)

/-- A key's grouped list is exactly its values in encounter order. -/
theorem buildGroups_lookup (kvs : List KeyValue) (k : String) :
    lookupG (buildGroups kvs) k =
      if k ∈ kvs.map KeyValue.Key then some (valsOf k kvs) else none := by
  have h := lookupG_foldl kvs [] k
  simpa [buildGroups, lookupG] using h

/-- The grouping map's keys are exactly the keys appearing in the
decoded pairs. -/
theorem buildGroups_keys_mem (kvs : List KeyValue) (k : String) :
    k ∈ (buildGroups kvs).map Prod.fst ↔ k ∈ kvs.map KeyValue.Key := by
  rw [← lookupG_isSome_iff, buildGroups_lookup]
  by_cases h : k ∈ kvs.map KeyValue.Key <;> simp [h]

/-- Each grouping entry's list is that key's values in encounter order. -/
theorem buildGroups_mem_val (kvs : List KeyValue) (p : String × List String)
    (hp : p ∈ buildGroups kvs) : p.2 = valsOf p.1 kvs := by
  have h1 := lookupG_of_mem_nodup (buildGroups kvs) (buildGroups_keys_nodup kvs) p hp
  have h2 : p.1 ∈ (buildGroups kvs).map Prod.fst := List.mem_map_of_mem Prod.fst hp
  rw [buildGroups_keys_mem] at h2
  rw [buildGroups_lookup, if_pos h2] at h1
  exact (Option.some.inj h1).symm

/-- With no failure-signalling result, the reduce loop appends one
result pair per grouped entry, in iteration order. -/
theorem reduceLoop_ok (f : String → List String → String) :
    ∀ (l : List (String × List String)) (acc : List KeyValue),
    (∀ p ∈ l, f p.1 p.2 ≠ "error") →
    reduceLoop f l acc =
      Except.ok (acc ++ l.map (fun p => ⟨p.1, f p.1 p.2⟩)) := by
  intro l
  induction l with
  | nil => intro acc _; simp [reduceLoop]
  | cons p rest ih =>
    intro acc h
    obtain ⟨k, vs⟩ := p
    have hk : ¬(f k vs = "error") := h (k, vs) (List.mem_cons_self _ _)
    simp only [reduceLoop, if_neg hk]
    rw [ih _ (fun q hq => h q (List.mem_cons_of_mem _ hq))]
    simp

/-- The reduce loop fails exactly when some entry's result is the
sentinel string. -/
theorem reduceLoop_error_iff (f : String → List String → String) :
    ∀ (l : List (String × List String)) (acc : List KeyValue),
    reduceLoop f l acc = Except.error GoErr.reduceFnErr ↔
      ∃ p ∈ l, f p.1 p.2 = "error" := by
  intro l
  induction l with
  | nil => intro acc; simp [reduceLoop]
  | cons p rest ih =>
    intro acc
    obtain ⟨k, vs⟩ := p
    by_cases hk : f k vs = "error"
    · simp only [reduceLoop, if_pos hk]
      constructor
      · intro _
        exact ⟨(k, vs), List.mem_cons_self _ _, hk⟩
      · intro _
        trivial
    · simp only [reduceLoop, if_neg hk]
      rw [ih]
      constructor
      · intro ⟨q, hq, he⟩
        exact ⟨q, List.mem_cons_of_mem _ hq, he⟩
      · intro ⟨q, hq, he⟩
        rcases List.mem_cons.mp hq with rfl | hq'
        · exact absurd he hk
        · exact ⟨q, hq', he⟩

/-- The only error the reduce loop produces is the transform failure. -/
theorem reduceLoop_error_kind (f : String → List String → String) :
    ∀ (l : List (String × List String)) (acc : List KeyValue) (e : GoErr),
    reduceLoop f l acc = Except.error e → e = GoErr.reduceFnErr := by
  intro l
  induction l with
  | nil => intro acc e h; exact absurd h (by simp [reduceLoop])
  | cons p rest ih =>
    intro acc e h
    obtain ⟨k, vs⟩ := p
    by_cases hk : f k vs = "error"
    · simp only [reduceLoop, if_pos hk] at h
      exact (Except.error.inj h).symm
    · simp only [reduceLoop, if_neg hk] at h
      exact ih _ e h

/-- With no injected faults the encode loop succeeds. -/
theorem encodeLoop_noFault :
    ∀ (l : List KeyValue) (k : Nat), encodeLoop noReduceFaults k l = none := by
  intro l
  induction l with
  | nil => intro k; rfl
  | cons kv rest ih => intro k; simp [encodeLoop, noReduceFaults_encodeErr, ih]

/-- With no injected faults the merge-file write succeeds: any
pre-existing merge file is removed and the new one appended. -/
theorem mergeWrite_noFault (job : String) (r : Nat) (fs : FS)
    (content : List KeyValue) :
    mergeWrite job r noReduceFaults fs content =
      (eraseFS fs (mergeName job r) ++ [(mergeName job r, content)],
       some (mergeName job r), none) := by
  unfold mergeWrite
  rw [if_neg (by simp [noReduceFaults])]
  cases hc : containsFS fs (mergeName job r) with
  | true => simp [noReduceFaults, hc, createFS, eraseFS_eraseFS]
  | false => simp [noReduceFaults, hc, createFS]

/-- The fault-free run of `doReduce` whose transform never returns the
sentinel: it succeeds and writes one merge record per grouped entry, in
iteration order. -/
theorem doReduce_noFault (job : String) (r nMap : Nat)
    (rf : String → List String → String)
    (reorder : List (String × List String) → List (String × List String)) (fs : FS)
    (hok : ∀ p ∈ reorder (buildGroups (readPure job r fs 0 nMap)),
      rf p.1 p.2 ≠ "error") :
    doReduce job r nMap rf reorder noReduceFaults fs =
      { fs := eraseFS fs (mergeName job r) ++
          [(mergeName job r,
            (reorder (buildGroups (readPure job r fs 0 nMap))).map
              (fun p => ⟨p.1, rf p.1 p.2⟩))],
        printed := none, ret := none } := by
  have h1 : readLoop job r noReduceFaults fs 0 nMap [] =
      Except.ok (readPure job r fs 0 nMap) := by
    rw [readLoop_noFault, List.nil_append]
  have h2 : reduceLoop rf (reorder (buildGroups (readPure job r fs 0 nMap))) [] =
      Except.ok ((reorder (buildGroups (readPure job r fs 0 nMap))).map
        (fun p => ⟨p.1, rf p.1 p.2⟩)) := by
    rw [reduceLoop_ok rf _ [] hok, List.nil_append]
  have h3 := encodeLoop_noFault ((reorder (buildGroups (readPure job r fs 0 nMap))).map
    (fun p => (⟨p.1, rf p.1 p.2⟩ : KeyValue))) 0
  have h4 := mergeWrite_noFault job r fs
    ((reorder (buildGroups (readPure job r fs 0 nMap))).map
      (fun p => (⟨p.1, rf p.1 p.2⟩ : KeyValue)))
  simp only [doReduce, h1, h2, h3, h4]

/-- The Go signature of `doMap` declares no results: no invocation
returns a value to its caller (DoMap.go lines 49-55). -/
theorem doMap_ret_none (job : String) (task : Nat) (inF c : String) (n : Nat)
    (mf : String → String → List KeyValue) (fl : MapFaults) (fs : FS) :
    (doMap job task inF c n mf fl fs).ret = none := by
  unfold doMap
  split
  · rfl
  · split
    · rfl
    · rfl
    · split <;> rfl

/-- The Go signature of `doReduce` declares no results: no invocation
returns a value to its caller (DoReduce.go lines 48-53). -/
theorem doReduce_ret_none (job : String) (r nMap : Nat)
    (rf : String → List String → String)
    (reorder : List (String × List String) → List (String × List String))
    (fl : ReduceFaults) (fs : FS) :
    (doReduce job r nMap rf reorder fl fs).ret = none := by
  unfold doReduce
  split
  · rfl
  · dsimp only
    split
    · rfl
    · split
      · rfl
      · split <;> rfl

/-! ### Reduce-side claims -/

/-- Claim C3: a fault-free reduce invocation whose transform signals no
failure succeeds; the grouping map has distinct keys — the transform is
invoked exactly once per distinct key of the present shards — its keys
are exactly the keys appearing in the decoded pairs (shard files in
ascending map-index order, pairs in stored order, per `readPure`), each
key's value list is that key's values in encounter order, and the merge
file holds exactly one record per grouped entry, in iteration order,
whose value is the transform's result on that key's ordered values. -/
theorem C3_reduce_exactly_once_per_key (job : String) (r nMap : Nat)
    (rf : String → List String → String)
    (reorder : List (String × List String) → List (String × List String))
    (fs : FS)
    (hperm : List.Perm (reorder (buildGroups (readPure job r fs 0 nMap)))
      (buildGroups (readPure job r fs 0 nMap)))
    (hok : ∀ p ∈ buildGroups (readPure job r fs 0 nMap), rf p.1 p.2 ≠ "error") :
    (doReduce job r nMap rf reorder noReduceFaults fs).printed = none ∧
    lookupFS (doReduce job r nMap rf reorder noReduceFaults fs).fs
        (mergeName job r) =
      some ((reorder (buildGroups (readPure job r fs 0 nMap))).map
        (fun p => ⟨p.1, rf p.1 p.2⟩)) ∧
    ((buildGroups (readPure job r fs 0 nMap)).map Prod.fst).Nodup ∧
    (∀ k, k ∈ (buildGroups (readPure job r fs 0 nMap)).map Prod.fst ↔
      k ∈ (readPure job r fs 0 nMap).map KeyValue.Key) ∧
    (∀ p ∈ buildGroups (readPure job r fs 0 nMap),
      p.2 = valsOf p.1 (readPure job r fs 0 nMap)) ∧
    List.Perm
      (((reorder (buildGroups (readPure job r fs 0 nMap))).map
        (fun p => (⟨p.1, rf p.1 p.2⟩ : KeyValue))).map KeyValue.Key)
      ((buildGroups (readPure job r fs 0 nMap)).map Prod.fst) ∧
    (∀ kv ∈ (reorder (buildGroups (readPure job r fs 0 nMap))).map
        (fun p => (⟨p.1, rf p.1 p.2⟩ : KeyValue)),
      kv.Value = rf kv.Key (valsOf kv.Key (readPure job r fs 0 nMap))) := by
  have hok' : ∀ p ∈ reorder (buildGroups (readPure job r fs 0 nMap)),
      rf p.1 p.2 ≠ "error" := fun p hp => hok p (hperm.mem_iff.mp hp)
  rw [doReduce_noFault job r nMap rf reorder fs hok']
  refine ⟨rfl, lookupFS_create_self fs _ _, buildGroups_keys_nodup _,
    fun k => buildGroups_keys_mem _ k, fun p hp => buildGroups_mem_val _ p hp,
    ?_, ?_⟩
  · have hmm : ((reorder (buildGroups (readPure job r fs 0 nMap))).map
        (fun p => (⟨p.1, rf p.1 p.2⟩ : KeyValue))).map KeyValue.Key =
        (reorder (buildGroups (readPure job r fs 0 nMap))).map Prod.fst := by
      rw [List.map_map]
      rfl
    rw [hmm]
    exact hperm.map Prod.fst
  · intro kv hkv
    rcases List.mem_map.mp hkv with ⟨p, hp, rfl⟩
    have hpG : p ∈ buildGroups (readPure job r fs 0 nMap) := hperm.mem_iff.mp hp
    have := buildGroups_mem_val _ p hpG
    show rf p.1 p.2 = rf p.1 (valsOf p.1 (readPure job r fs 0 nMap))
    rw [this]

/-- Witness for C3 at a concrete reduce task over one shard holding
three pairs under two keys, iterated in insertion order. -/
theorem C3_reduce_exactly_once_per_key_witness :
    List.Perm
      ((fun l => l) (buildGroups (readPure "j" 0
        [(reduceName "j" 0 0, [⟨"a", "1"⟩, ⟨"b", "2"⟩, ⟨"a", "3"⟩])] 0 1)))
      (buildGroups (readPure "j" 0
        [(reduceName "j" 0 0, [⟨"a", "1"⟩, ⟨"b", "2"⟩, ⟨"a", "3"⟩])] 0 1)) ∧
    (∀ p ∈ buildGroups (readPure "j" 0
        [(reduceName "j" 0 0, [⟨"a", "1"⟩, ⟨"b", "2"⟩, ⟨"a", "3"⟩])] 0 1),
      (fun (k : String) (_ : List String) => k) p.1 p.2 ≠ "error") ∧
    ((doReduce "j" 0 1 (fun k _ => k) (fun l => l) noReduceFaults
        [(reduceName "j" 0 0, [⟨"a", "1"⟩, ⟨"b", "2"⟩, ⟨"a", "3"⟩])]).printed = none ∧
     lookupFS (doReduce "j" 0 1 (fun k _ => k) (fun l => l) noReduceFaults
        [(reduceName "j" 0 0, [⟨"a", "1"⟩, ⟨"b", "2"⟩, ⟨"a", "3"⟩])]).fs
        (mergeName "j" 0) =
      some (((fun l => l) (buildGroups (readPure "j" 0
          [(reduceName "j" 0 0, [⟨"a", "1"⟩, ⟨"b", "2"⟩, ⟨"a", "3"⟩])] 0 1))).map
        (fun p => ⟨p.1, (fun (k : String) (_ : List String) => k) p.1 p.2⟩)) ∧
     ((buildGroups (readPure "j" 0
        [(reduceName "j" 0 0, [⟨"a", "1"⟩, ⟨"b", "2"⟩, ⟨"a", "3"⟩])] 0 1)).map
        Prod.fst).Nodup ∧
     (∀ k, k ∈ (buildGroups (readPure "j" 0
          [(reduceName "j" 0 0, [⟨"a", "1"⟩, ⟨"b", "2"⟩, ⟨"a", "3"⟩])] 0 1)).map
          Prod.fst ↔
        k ∈ (readPure "j" 0
          [(reduceName "j" 0 0, [⟨"a", "1"⟩, ⟨"b", "2"⟩, ⟨"a", "3"⟩])] 0 1).map
          KeyValue.Key) ∧
     (∀ p ∈ buildGroups (readPure "j" 0
          [(reduceName "j" 0 0, [⟨"a", "1"⟩, ⟨"b", "2"⟩, ⟨"a", "3"⟩])] 0 1),
       p.2 = valsOf p.1 (readPure "j" 0
          [(reduceName "j" 0 0, [⟨"a", "1"⟩, ⟨"b", "2"⟩, ⟨"a", "3"⟩])] 0 1)) ∧
     List.Perm
       ((((fun l => l) (buildGroups (readPure "j" 0
           [(reduceName "j" 0 0, [⟨"a", "1"⟩, ⟨"b", "2"⟩, ⟨"a", "3"⟩])] 0 1))).map
         (fun p => (⟨p.1, (fun (k : String) (_ : List String) => k) p.1 p.2⟩ : KeyValue))).map
         KeyValue.Key)
       ((buildGroups (readPure "j" 0
          [(reduceName "j" 0 0, [⟨"a", "1"⟩, ⟨"b", "2"⟩, ⟨"a", "3"⟩])] 0 1)).map
         Prod.fst) ∧
     (∀ kv ∈ ((fun l => l) (buildGroups (readPure "j" 0
          [(reduceName "j" 0 0, [⟨"a", "1"⟩, ⟨"b", "2"⟩, ⟨"a", "3"⟩])] 0 1))).map
         (fun p => (⟨p.1, (fun (k : String) (_ : List String) => k) p.1 p.2⟩ : KeyValue)),
       kv.Value = (fun (k : String) (_ : List String) => k) kv.Key
         (valsOf kv.Key (readPure "j" 0
           [(reduceName "j" 0 0, [⟨"a", "1"⟩, ⟨"b", "2"⟩, ⟨"a", "3"⟩])] 0 1)))) :=
  ⟨List.Perm.refl _, by decide,
   C3_reduce_exactly_once_per_key "j" 0 1 (fun k _ => k) (fun l => l)
     [(reduceName "j" 0 0, [⟨"a", "1"⟩, ⟨"b", "2"⟩, ⟨"a", "3"⟩])]
     (List.Perm.refl _) (by decide)⟩

/-- Claim C4 (corrected/amended): the reduce executor's failure signal
from the user transform is the sentinel string `"error"` compared at
DoReduce.go line 139 — a single-channel result, not a two-channel one.
With no injected operating-system faults, an invocation aborts with a
transform failure exactly when some grouped entry's transform result
equals `"error"`; every other string result is accepted. -/
theorem C4_sentinel_is_exact_failure_signal (job : String) (r nMap : Nat)
    (rf : String → List String → String)
    (reorder : List (String × List String) → List (String × List String))
    (fs : FS) :
    (doReduce job r nMap rf reorder noReduceFaults fs).printed =
        some GoErr.reduceFnErr ↔
      ∃ p ∈ reorder (buildGroups (readPure job r fs 0 nMap)),
        rf p.1 p.2 = "error" := by
  have h1 : readLoop job r noReduceFaults fs 0 nMap [] =
      Except.ok (readPure job r fs 0 nMap) := by
    rw [readLoop_noFault, List.nil_append]
  rw [← reduceLoop_error_iff rf (reorder (buildGroups (readPure job r fs 0 nMap))) []]
  unfold doReduce
  rw [h1]
  cases hr : reduceLoop rf (reorder (buildGroups (readPure job r fs 0 nMap))) [] with
  | error e =>
    have he := reduceLoop_error_kind rf _ [] e hr
    subst he
    simp [hr]
  | ok newKeyValues =>
    simp [hr, encodeLoop_noFault, mergeWrite_noFault]

/-- Claim C4's counterexample: a transform that legitimately returns
the string `"error"` for key `"a"` is interpreted as a failure — the
task aborts and writes no merge file — so a valid result value is
indistinguishable from the failure signal. -/
theorem C4_legitimate_error_string_rejected :
    (doReduce "j" 0 1 (fun _ _ => "error") (fun l => l) noReduceFaults
        [(reduceName "j" 0 0, [⟨"a", "1"⟩])]).printed = some GoErr.reduceFnErr ∧
    lookupFS (doReduce "j" 0 1 (fun _ _ => "error") (fun l => l) noReduceFaults
        [(reduceName "j" 0 0, [⟨"a", "1"⟩])]).fs (mergeName "j" 0) = none := by
  decide

/-- Claim C5 (code bug, concrete evaluation): the grouping map is
iterated in Go's unspecified map order, not a fixed one.  Two runs of
the same reduce task over the same shard contents, differing only in
the iteration order (both orders being permutations of the grouped
entries, as Go's `range` guarantees), both succeed but produce merge
files with differently ordered records — not byte-identical content. -/
theorem C5_iteration_order_changes_output :
    List.Perm
      (List.reverse (buildGroups (readPure "j" 0
        [(reduceName "j" 0 0, [⟨"a", "1"⟩, ⟨"b", "2"⟩])] 0 1)))
      (buildGroups (readPure "j" 0
        [(reduceName "j" 0 0, [⟨"a", "1"⟩, ⟨"b", "2"⟩])] 0 1)) ∧
    ((doReduce "j" 0 1 (fun k _ => k) (fun l => l) noReduceFaults
        [(reduceName "j" 0 0, [⟨"a", "1"⟩, ⟨"b", "2"⟩])]).printed = none ∧
     (doReduce "j" 0 1 (fun k _ => k) List.reverse noReduceFaults
        [(reduceName "j" 0 0, [⟨"a", "1"⟩, ⟨"b", "2"⟩])]).printed = none ∧
     lookupFS (doReduce "j" 0 1 (fun k _ => k) (fun l => l) noReduceFaults
        [(reduceName "j" 0 0, [⟨"a", "1"⟩, ⟨"b", "2"⟩])]).fs (mergeName "j" 0) =
       some [⟨"a", "a"⟩, ⟨"b", "b"⟩] ∧
     lookupFS (doReduce "j" 0 1 (fun k _ => k) List.reverse noReduceFaults
        [(reduceName "j" 0 0, [⟨"a", "1"⟩, ⟨"b", "2"⟩])]).fs (mergeName "j" 0) =
       some [⟨"b", "b"⟩, ⟨"a", "a"⟩] ∧
     lookupFS (doReduce "j" 0 1 (fun k _ => k) (fun l => l) noReduceFaults
        [(reduceName "j" 0 0, [⟨"a", "1"⟩, ⟨"b", "2"⟩])]).fs (mergeName "j" 0) ≠
       lookupFS (doReduce "j" 0 1 (fun k _ => k) List.reverse noReduceFaults
        [(reduceName "j" 0 0, [⟨"a", "1"⟩, ⟨"b", "2"⟩])]).fs (mergeName "j" 0)) :=
  ⟨List.reverse_perm _, by decide⟩

/-- Claim C7 (corrected/amended): neither executor returns or raises a
failure value to its caller — the Go functions declare no results — and
a failed invocation reports its error only by printing a message to
standard output (shown here for a failed read in `doMap` and a
transform failure in `doReduce`). -/
theorem C7_failures_printed_not_returned :
    (∀ (job : String) (task : Nat) (inF c : String) (n : Nat)
       (mf : String → String → List KeyValue) (fl : MapFaults) (fs : FS),
       (doMap job task inF c n mf fl fs).ret = none) ∧
    (∀ (job : String) (r nMap : Nat) (rf : String → List String → String)
       (reorder : List (String × List String) → List (String × List String))
       (fl : ReduceFaults) (fs : FS),
       (doReduce job r nMap rf reorder fl fs).ret = none) ∧
    (doMap "j" 0 "f" "" 1 (fun _ _ => [])
        ⟨true, fun _ => false, fun _ => false, fun _ => false, fun _ => false⟩
        []).printed = some GoErr.readErr ∧
    (doReduce "j" 0 1 (fun _ _ => "error") (fun l => l) noReduceFaults
        [(reduceName "j" 0 0, [⟨"b", "2"⟩])]).printed = some GoErr.reduceFnErr :=
  ⟨fun job task inF c n mf fl fs => doMap_ret_none job task inF c n mf fl fs,
   fun job r nMap rf reorder fl fs => doReduce_ret_none job r nMap rf reorder fl fs,
   by decide, by decide⟩

/-- Claim C7's counterexample: a map invocation whose input read fails
prints a descriptive message but returns nothing to its caller — the
failure is observable only through the stdout side channel, and no
value identifies the phase or task coordinates to the caller. -/
theorem C7_failure_returns_nothing_counterexample :
    (doMap "j" 0 "f" "" 1 (fun _ _ => [])
        ⟨true, fun _ => false, fun _ => false, fun _ => false, fun _ => false⟩
        []).ret = none ∧
    (doMap "j" 0 "f" "" 1 (fun _ _ => [])
        ⟨true, fun _ => false, fun _ => false, fun _ => false, fun _ => false⟩
        []).printed = some GoErr.readErr := by
  decide

/-- Claim C8: an absent shard file contributes zero pairs and is never
an error — the fault-free decode loop always succeeds, reading each
present shard and skipping absent ones — and concretely, a reduce task
with `nMap = 2`, shard 0 absent and shard 1 holding `("a","1")`
succeeds, groups `a` to `["1"]`, and (with a counting transform) writes
the merge record `("a","1")`. -/
theorem C8_absent_shard_contributes_nothing (job : String) (r nMap : Nat)
    (fs : FS) :
    (readLoop job r noReduceFaults fs 0 nMap [] =
      Except.ok (readPure job r fs 0 nMap)) ∧
    ((doReduce "j" 0 2 (fun _ vs => toString vs.length) (fun l => l) noReduceFaults
        [(reduceName "j" 1 0, [⟨"a", "1"⟩])]).printed = none ∧
     buildGroups (readPure "j" 0 [(reduceName "j" 1 0, [⟨"a", "1"⟩])] 0 2) =
       [("a", ["1"])] ∧
     lookupFS (doReduce "j" 0 2 (fun _ vs => toString vs.length) (fun l => l)
         noReduceFaults [(reduceName "j" 1 0, [⟨"a", "1"⟩])]).fs (mergeName "j" 0) =
       some [⟨"a", "1"⟩]) := by
  refine ⟨?_, by decide⟩
  rw [readLoop_noFault, List.nil_append]
